import Mathlib

/-!
Shallow embedding of the `micro-semantic-cache` TypeScript library
(`src/cache.ts`, `src/vector.ts`, `src/types.ts`).

Modelling conventions:
* JS `number` timestamps (`Date.now()` values, `ttl`, `maxSize`, the result
  count `k`) are modelled as `ℤ`; embedding coordinates, similarity scores and
  thresholds as `ℝ` (`Math.sqrt` forces real arithmetic).
* `Date.now()` is modelled by an explicit `now : ℤ` argument to every
  operation that reads the clock.
* The JS `Map<string, CacheEntry>` is modelled as a `List (CacheEntry V)` in
  insertion order; `Map.get` is first-match lookup, `Map.set` replaces in
  place when the key is present and appends otherwise, `Map.delete` removes
  entries with the key.  These are exactly the observable Map semantics the
  code relies on.
* `throw` is modelled by `Except`/an error component: `set` returns
  `Option String × Cache V` (the error message if it threw, paired with the
  resulting state — the TS `throw` happens before any mutation, so the state
  component is the unchanged input in the error case); `cosineSimilarity`,
  `findKNearest` and `getSimilar` return `Except String _`.
* `async`/`Promise` is flattened: the embedding function is modelled as a
  synchronous `String → List ℝ` (the code awaits the promise before using
  the vector, and embedding generation never touches the store).
-/

/-- CacheEntry from `src/types.ts`: key, value, embedding vector, creation
timestamp and absolute expiry time. -/
structure CacheEntry (V : Type) where
  key : String
  value : V
  embedding : List ℝ
  timestamp : ℤ
  expiresAt : ℤ

/-- SimilarityResult from `src/types.ts`. -/
structure SimilarityResult (V : Type) where
  key : String
  value : V
  similarity : ℝ

/-- CacheStats from `src/types.ts` (the record returned by `stats()`). -/
structure CacheStats where
  hits : ℕ
  misses : ℕ
  similarHits : ℕ
  size : ℕ
  hitRate : ℝ

/-- Resolved configuration (`Required<CacheConfig>` in `src/cache.ts`). -/
structure CacheConfig where
  maxSize : ℤ
  ttl : ℤ
  similarityThreshold : ℝ
  embeddingDimension : ℕ
  embedFn : String → List ℝ

/-- Caller-supplied configuration (`CacheConfig` in `src/types.ts`: every
field optional). -/
structure CacheConfigInput where
  maxSize : Option ℤ
  ttl : Option ℤ
  similarityThreshold : Option ℝ
  embeddingDimension : Option ℕ
  embedFn : Option (String → List ℝ)

/-- Full state of a `SemanticCache` instance: the entry map (insertion-order
list), the resolved config, and the three statistics counters held in
`this.stats`. -/
structure Cache (V : Type) where
  entries : List (CacheEntry V)
  config : CacheConfig
  hits : ℕ
  misses : ℕ
  similarHits : ℕ

/-- JS `Map.prototype.get`: first entry with the key, if any. -/
def mapGet {V : Type} (es : List (CacheEntry V)) (k : String) :
    Option (CacheEntry V) :=
  es.find? (fun e => e.key == k)

/-- JS `Map.prototype.has`. -/
def mapHas {V : Type} (es : List (CacheEntry V)) (k : String) : Bool :=
  es.any (fun e => e.key == k)

/-- Removal part of JS `Map.prototype.delete`. -/
def mapRemove {V : Type} (es : List (CacheEntry V)) (k : String) :
    List (CacheEntry V) :=
  es.filter (fun e => !(e.key == k))

/-- JS `Map.prototype.set`: replace in place when the key is already present
(keeping the original insertion position), append otherwise. -/
def mapSet {V : Type} (es : List (CacheEntry V)) (e : CacheEntry V) :
    List (CacheEntry V) :=
  if es.any (fun x => x.key == e.key) then
    es.map (fun x => if x.key == e.key then e else x)
  else
    es ++ [e]

/-- Sum of squares of a vector, as accumulated by the loops in
`src/vector.ts`. -/
def sumSq (v : List ℝ) : ℝ :=
  v.foldl (fun s x => s + x * x) 0

/-- Dot product as accumulated by the loop in `cosineSimilarity` (the length
check has already ensured equal lengths, so pairing with `zip` is faithful). -/
def dotProduct (a b : List ℝ) : ℝ :=
  (a.zip b).foldl (fun s p => s + p.1 * p.2) 0

/-- cosineSimilarity from `src/vector.ts`: throws on a length mismatch,
returns `0` when either magnitude is zero, otherwise `dot / (‖a‖·‖b‖)`. -/
noncomputable def cosineSimilarity (a b : List ℝ) : Except String ℝ :=
  if a.length ≠ b.length then
    Except.error "Vectors must have the same dimension"
  else
    let magnitude := Real.sqrt (sumSq a) * Real.sqrt (sumSq b)
    if magnitude = 0 then Except.ok 0
    else Except.ok (dotProduct a b / magnitude)

/-- normalize from `src/vector.ts`: scale to unit L2 norm, identity on a
zero-magnitude vector. -/
noncomputable def normalizeVec (vector : List ℝ) : List ℝ :=
  let magnitude := Real.sqrt (vector.foldl (fun sum val => sum + val * val) 0)
  if magnitude = 0 then vector
  else vector.map (fun val => val / magnitude)

/-- One step of the accumulation loop in `defaultEmbedding`:
`embedding[idx] += Math.sin(i * charCode) * 0.1` with
`idx = charCode % dimension`. -/
noncomputable def bumpAt (emb : List ℝ) (idx : ℕ) (delta : ℝ) : List ℝ :=
  emb.set idx (emb.getD idx 0 + delta)

/-- defaultEmbedding from `src/vector.ts`: a zero vector of the requested
dimension, bumped once per character of the lower-cased text at index
`charCode % dimension`, then normalized (the name `normalize` is taken by Mathlib, hence `normalizeVec`).  (Character codes are modelled by
`Char.toNat`; only the vector's length matters to the claims.) -/
noncomputable def defaultEmbedding (text : String) (dimension : ℕ) : List ℝ :=
  let codes := (text.toLower).data.map Char.toNat
  let embedding := codes.enum.foldl
    (fun emb ic =>
      bumpAt emb (ic.2 % dimension) (Real.sin ((ic.1 : ℝ) * (ic.2 : ℝ)) * 0.1))
    (List.replicate dimension 0)
  normalizeVec embedding

/-- Descending-similarity ordering used to model
`results.sort((a, b) => b.similarity - a.similarity)`: `a` may precede `b`
iff `b.similarity ≤ a.similarity`. -/
def simGE {V : Type} (a b : SimilarityResult V) : Prop :=
  b.similarity ≤ a.similarity

noncomputable instance {V : Type} : DecidableRel (@simGE V) :=
  fun a b => Real.decidableLE b.similarity a.similarity

instance {V : Type} : IsTotal (SimilarityResult V) simGE :=
  ⟨fun a b => le_total b.similarity a.similarity⟩

instance {V : Type} : IsTrans (SimilarityResult V) simGE :=
  ⟨fun _ _ _ hab hbc => le_trans hbc hab⟩

/-- The sort in `findKNearest`: ES2019 `Array.prototype.sort` is stable, and
the comparator `b.similarity - a.similarity` orders by descending similarity,
so the call is a stable descending sort — modelled by insertion sort. -/
noncomputable def sortDesc {V : Type} (rs : List (SimilarityResult V)) :
    List (SimilarityResult V) :=
  List.insertionSort simGE rs

/-- JS `Array.prototype.slice(0, k)`: a nonnegative end index takes the first
`min k length` elements; a negative end index counts from the end
(`max (length + k) 0` elements). -/
def jsSliceTo {α : Type} (l : List α) (k : ℤ) : List α :=
  if k < 0 then l.take ((l.length : ℤ) + k).toNat else l.take k.toNat

/-- The accumulation loop of `findKNearest` (`src/vector.ts`): walk the
entries in map order, skip expired ones, compute the similarity (propagating
a thrown dimension mismatch), and keep results with `similarity >= threshold`
in encounter order. -/
noncomputable def collectResults {V : Type} (now : ℤ) (queryEmbedding : List ℝ)
    (threshold : ℝ) : List (CacheEntry V) →
    Except String (List (SimilarityResult V))
  | [] => Except.ok []
  | e :: es =>
    if e.expiresAt < now then collectResults now queryEmbedding threshold es
    else
      match cosineSimilarity queryEmbedding e.embedding with
      | Except.error msg => Except.error msg
      | Except.ok similarity =>
        match collectResults now queryEmbedding threshold es with
        | Except.error msg => Except.error msg
        | Except.ok rest =>
          Except.ok (if threshold ≤ similarity then
            ⟨e.key, e.value, similarity⟩ :: rest else rest)

/-- findKNearest from `src/vector.ts`: collect qualifying results, sort by
descending similarity, and `slice(0, k)`. -/
noncomputable def findKNearest {V : Type} (now : ℤ) (queryEmbedding : List ℝ)
    (entries : List (CacheEntry V)) (k : ℤ) (threshold : ℝ) :
    Except String (List (SimilarityResult V)) :=
  match collectResults now queryEmbedding threshold entries with
  | Except.error msg => Except.error msg
  | Except.ok results => Except.ok (jsSliceTo (sortDesc results) k)

/-- Error message built by `set` on a dimension mismatch. -/
def dimensionMismatchMsg (expected got : ℕ) : String :=
  "Embedding dimension mismatch: expected " ++ toString expected ++
    ", got " ++ toString got

namespace SemanticCache

variable {V : Type}

/-- Constructor defaults from `src/cache.ts` (`config?.x ?? default`); the
fallback embedding function closes over `config?.embeddingDimension ?? 384`. -/
noncomputable def resolveConfig (config : CacheConfigInput) : CacheConfig where
  maxSize := config.maxSize.getD 1000
  ttl := config.ttl.getD 3600000
  similarityThreshold := config.similarityThreshold.getD 0.85
  embeddingDimension := config.embeddingDimension.getD 384
  embedFn := config.embedFn.getD
    (fun text => defaultEmbedding text (config.embeddingDimension.getD 384))

/-- `new SemanticCache(config)` / `createSemanticCache(config)`: empty map,
zeroed statistics, resolved configuration. -/
noncomputable def createSemanticCache (config : CacheConfigInput) : Cache V where
  entries := []
  config := resolveConfig config
  hits := 0
  misses := 0
  similarHits := 0

/-- get from `src/cache.ts`: missing key counts a miss; an entry with
`expiresAt < now` is deleted and counts a miss; otherwise a hit returning the
value. -/
def get (c : Cache V) (now : ℤ) (key : String) : Option V × Cache V :=
  match mapGet c.entries key with
  | none => (none, { c with misses := c.misses + 1 })
  | some entry =>
    if entry.expiresAt < now then
      (none,
        { c with
          entries := mapRemove c.entries key
          misses := c.misses + 1 })
    else
      (some entry.value, { c with hits := c.hits + 1 })

/-- The `evictOldest` scan (`src/cache.ts`): track the key of the entry with
the smallest timestamp seen so far, strict `<` so the first minimal entry in
map order wins; `oldestTimestamp` starts at `Infinity`, so the first entry
always becomes the initial candidate. -/
def oldestOf (es : List (CacheEntry V)) : Option String :=
  (es.foldl
    (fun acc e =>
      match acc with
      | none => some (e.key, e.timestamp)
      | some kt => if e.timestamp < kt.2 then some (e.key, e.timestamp) else acc)
    none).map Prod.fst

/-- evictOldest from `src/cache.ts`.  The deletion is guarded by the JS
truthiness test `if (oldestKey)`, under which the empty-string key is falsy:
when the oldest entry's key is `""`, nothing is deleted. -/
def evictOldest (es : List (CacheEntry V)) : List (CacheEntry V) :=
  match oldestOf es with
  | none => es
  | some oldestKey =>
    if oldestKey = "" then es else mapRemove es oldestKey

/-- The storing tail of `set` (after the embedding vector is available):
build the entry with `createdAt = now`, `expiresAt = now + ttl`, evict when
the map is at `maxSize` and the key is new, then `Map.set`. -/
def setStore (c : Cache V) (now : ℤ) (key : String) (value : V)
    (embeddingVector : List ℝ) : Cache V :=
  let entry : CacheEntry V :=
    ⟨key, value, embeddingVector, now, now + c.config.ttl⟩
  let entries' :=
    if (c.entries.length : ℤ) ≥ c.config.maxSize ∧ mapHas c.entries key = false
    then evictOldest c.entries
    else c.entries
  { c with entries := mapSet entries' entry }

/-- set from `src/cache.ts`.  First component: the thrown error message, if
any (the throw happens before any mutation, so the state component is the
unchanged input in that case).  A supplied vector is validated against
`embeddingDimension`; an omitted one is produced by `config.embedFn(key)`
without validation. -/
def set (c : Cache V) (now : ℤ) (key : String) (value : V)
    (embedding : Option (List ℝ)) : Option String × Cache V :=
  match embedding with
  | some e =>
    if e.length ≠ c.config.embeddingDimension then
      (some (dimensionMismatchMsg c.config.embeddingDimension e.length), c)
    else
      (none, setStore c now key value e)
  | none =>
    (none, setStore c now key value (c.config.embedFn key))

/-- A `getSimilar` query: a text (run through `config.embedFn`) or a
precomputed vector. -/
inductive Query where
  | text (s : String)
  | vec (v : List ℝ)

/-- getSimilar from `src/cache.ts`: resolve the query embedding, default the
threshold to `config.similarityThreshold`, run `findKNearest` over the raw
entry map, and add the result count to `similarHits` when nonempty. -/
noncomputable def getSimilar (c : Cache V) (now : ℤ) (query : Query) (k : ℤ)
    (threshold : Option ℝ) :
    Except String (List (SimilarityResult V)) × Cache V :=
  match findKNearest now
      (match query with
       | Query.text s => c.config.embedFn s
       | Query.vec v => v)
      c.entries k (threshold.getD c.config.similarityThreshold) with
  | Except.error msg => (Except.error msg, c)
  | Except.ok results =>
    (Except.ok results,
     if results.length > 0 then
       { c with similarHits := c.similarHits + results.length }
     else c)

/-- has from `src/cache.ts`: true iff present and not expired; deletes a
found-but-expired entry. -/
def has (c : Cache V) (now : ℤ) (key : String) : Bool × Cache V :=
  match mapGet c.entries key with
  | none => (false, c)
  | some entry =>
    if entry.expiresAt < now then
      (false, { c with entries := mapRemove c.entries key })
    else
      (true, c)

/-- delete from `src/cache.ts`: `Map.delete` — reports whether the key was
physically present (expired or not) and removes it. -/
def delete (c : Cache V) (key : String) : Bool × Cache V :=
  (mapHas c.entries key, { c with entries := mapRemove c.entries key })

/-- clear from `src/cache.ts`: empty the map and zero the counters. -/
def clear (c : Cache V) : Cache V :=
  { c with entries := [], hits := 0, misses := 0, similarHits := 0 }

/-- stats from `src/cache.ts`: the counters, the raw map size, and
`hitRate = hits / (hits + misses)` (0 when there were no requests). -/
noncomputable def stats (c : Cache V) : CacheStats where
  hits := c.hits
  misses := c.misses
  similarHits := c.similarHits
  size := c.entries.length
  hitRate :=
    if c.hits + c.misses > 0 then (c.hits : ℝ) / ((c.hits : ℝ) + (c.misses : ℝ))
    else 0

end SemanticCache

/-- One observable operation of the public API, as a state transition. -/
inductive Step {V : Type} : Cache V → Cache V → Prop where
  | get (c : Cache V) (now : ℤ) (key : String) :
      Step c (SemanticCache.get c now key).2
  | set (c : Cache V) (now : ℤ) (key : String) (value : V)
      (emb : Option (List ℝ)) :
      Step c (SemanticCache.set c now key value emb).2
  | getSimilar (c : Cache V) (now : ℤ) (q : SemanticCache.Query) (k : ℤ)
      (th : Option ℝ) :
      Step c (SemanticCache.getSimilar c now q k th).2
  | has (c : Cache V) (now : ℤ) (key : String) :
      Step c (SemanticCache.has c now key).2
  | delete (c : Cache V) (key : String) :
      Step c (SemanticCache.delete c key).2
  | clear (c : Cache V) : Step c (SemanticCache.clear c)

/-- Cache states reachable from a freshly constructed instance through the
public API. -/
inductive Reachable {V : Type} : Cache V → Prop where
  | init (cfg : CacheConfigInput) :
      Reachable (SemanticCache.createSemanticCache cfg)
  | step {c c' : Cache V} : Reachable c → Step c c' → Reachable c'

/-- Small concrete configuration used by the concrete evaluation theorems:
dimension 1, ttl 100, threshold 0, capacity 10. -/
def sampleConfig : CacheConfig where
  maxSize := 10
  ttl := 100
  similarityThreshold := 0
  embeddingDimension := 1
  embedFn := fun _ => [0]

/-- Concrete empty cache under `sampleConfig`. -/
def emptyCache : Cache String where
  entries := []
  config := sampleConfig
  hits := 0
  misses := 0
  similarHits := 0

/-- Concrete cache holding a single entry `"k" ↦ "v"` created at time 0 with
`expiresAt = 100`, under `sampleConfig`. -/
def sampleCache : Cache String where
  entries := [⟨"k", "v", [0], 0, 100⟩]
  config := sampleConfig
  hits := 0
  misses := 0
  similarHits := 0

/-- Concrete cache with two live entries `"a"` and `"b"` whose embeddings are
both `[1]`, under `sampleConfig`. -/
def twoEntryCache : Cache String where
  entries := [⟨"a", "va", [1], 0, 100⟩, ⟨"b", "vb", [1], 0, 100⟩]
  config := sampleConfig
  hits := 0
  misses := 0
  similarHits := 0

/-- Capacity-1 configuration (dimension 1, ttl 100) for the eviction
scenario. -/
def oneCapConfig : CacheConfig where
  maxSize := 1
  ttl := 100
  similarityThreshold := 0
  embeddingDimension := 1
  embedFn := fun _ => [0]

/-- Fresh cache under `oneCapConfig`. -/
def oneCapCache : Cache String where
  entries := []
  config := oneCapConfig
  hits := 0
  misses := 0
  similarHits := 0

/-- Fully specified constructor input (dimension 1, embedding function
returning `[0]`) used to build a concrete reachable state. -/
def witnessInput : CacheConfigInput where
  maxSize := some 10
  ttl := some 100
  similarityThreshold := some 0
  embeddingDimension := some 1
  embedFn := some (fun _ => [0])

section MapLemmas

variable {V : Type}

lemma find?_replace_self (es : List (CacheEntry V)) (e : CacheEntry V)
    (h : es.any (fun x => x.key == e.key) = true) :
    (es.map (fun x => if x.key == e.key then e else x)).find?
      (fun x => x.key == e.key) = some e := by
  induction es with
  | nil => simp at h
  | cons x xs ih =>
    rw [List.map_cons]
    by_cases hx : (x.key == e.key) = true
    · rw [if_pos hx]
      exact List.find?_cons_of_pos (p := fun y : CacheEntry V => y.key == e.key) _
        (beq_self_eq_true e.key)
    · have h' : xs.any (fun x => x.key == e.key) = true := by
        simpa [List.any_cons, hx] using h
      rw [if_neg hx, List.find?_cons_of_neg (p := fun y : CacheEntry V => y.key == e.key) _ hx]
      exact ih h'

lemma find?_append_self (es : List (CacheEntry V)) (e : CacheEntry V)
    (h : es.any (fun x => x.key == e.key) = false) :
    (es ++ [e]).find? (fun x => x.key == e.key) = some e := by
  induction es with
  | nil => simp
  | cons x xs ih =>
    rw [List.any_cons] at h
    have hx : (x.key == e.key) = false := by
      cases hb : (x.key == e.key) <;> simp [hb] at h ⊢
    have h' : xs.any (fun x => x.key == e.key) = false := by
      cases hb : xs.any (fun x => x.key == e.key) <;> simp [hx, hb] at h ⊢
    simp [hx, ih h']

lemma mapGet_mapSet_self (es : List (CacheEntry V)) (e : CacheEntry V)
    (k : String) (hk : e.key = k) : mapGet (mapSet es e) k = some e := by
  subst hk
  unfold mapGet mapSet
  by_cases h : es.any (fun x => x.key == e.key) = true
  · rw [if_pos h]
    exact find?_replace_self es e h
  · have h' : es.any (fun x => x.key == e.key) = false :=
      Bool.eq_false_iff.mpr h
    rw [if_neg h]
    exact find?_append_self es e h'

lemma find?_replace_other (es : List (CacheEntry V)) (e : CacheEntry V)
    (k : String) (hk : k ≠ e.key) :
    (es.map (fun x => if x.key == e.key then e else x)).find?
      (fun x => x.key == k) = es.find? (fun x => x.key == k) := by
  have hek : (e.key == k) = false := by
    simp only [beq_eq_false_iff_ne, ne_eq]
    exact fun hc => hk hc.symm
  have hekP : ¬ ((e.key == k) = true) := by
    simp only [beq_iff_eq]
    exact fun hc => hk hc.symm
  induction es with
  | nil => simp
  | cons x xs ih =>
    rw [List.map_cons]
    by_cases hx : (x.key == e.key) = true
    · have hxe : x.key = e.key := by simpa using hx
      have hxk : ¬ ((x.key == k) = true) := by
        rw [hxe]
        exact hekP
      rw [if_pos hx, List.find?_cons_of_neg (p := fun y : CacheEntry V => y.key == k) _ hekP,
        List.find?_cons_of_neg (p := fun y : CacheEntry V => y.key == k) _ hxk]
      exact ih
    · by_cases hxk : (x.key == k) = true
      · rw [if_neg hx, List.find?_cons_of_pos (p := fun y : CacheEntry V => y.key == k) _ hxk,
          List.find?_cons_of_pos (p := fun y : CacheEntry V => y.key == k) _ hxk]
      · rw [if_neg hx, List.find?_cons_of_neg (p := fun y : CacheEntry V => y.key == k) _ hxk,
          List.find?_cons_of_neg (p := fun y : CacheEntry V => y.key == k) _ hxk]
        exact ih

lemma find?_append_other (es : List (CacheEntry V)) (e : CacheEntry V)
    (k : String) (hk : k ≠ e.key) :
    (es ++ [e]).find? (fun x => x.key == k) = es.find? (fun x => x.key == k) := by
  have hek : (e.key == k) = false := by
    simp only [beq_eq_false_iff_ne, ne_eq]
    exact fun hc => hk hc.symm
  induction es with
  | nil => simp [hek]
  | cons x xs ih =>
    by_cases hxk : (x.key == k) = true
    · simp [hxk]
    · have hxk' : (x.key == k) = false := Bool.eq_false_iff.mpr hxk
      simp [hxk', ih]

lemma mapGet_mapSet_other (es : List (CacheEntry V)) (e : CacheEntry V)
    (k : String) (hk : k ≠ e.key) :
    mapGet (mapSet es e) k = mapGet es k := by
  unfold mapGet mapSet
  by_cases h : es.any (fun x => x.key == e.key) = true
  · rw [if_pos h]
    exact find?_replace_other es e k hk
  · rw [if_neg h]
    exact find?_append_other es e k hk

lemma length_mapSet_of_has (es : List (CacheEntry V)) (e : CacheEntry V)
    (h : es.any (fun x => x.key == e.key) = true) :
    (mapSet es e).length = es.length := by
  unfold mapSet
  rw [if_pos h]
  exact List.length_map _ _

end MapLemmas

section SetGetTheorems

variable {V : Type}

lemma get_setStore (c : Cache V) (t t' : ℤ) (key : String) (v : V)
    (vec : List ℝ) (ht : t' < t + c.config.ttl) :
    (SemanticCache.get (SemanticCache.setStore c t key v vec) t' key).1 =
      some v := by
  have hlt : ¬ ((⟨key, v, vec, t, t + c.config.ttl⟩ : CacheEntry V).expiresAt
      < t') := by
    show ¬ (t + c.config.ttl < t')
    omega
  have hm : mapGet
      (mapSet
        (if (c.entries.length : ℤ) ≥ c.config.maxSize ∧
            mapHas c.entries key = false
         then SemanticCache.evictOldest c.entries else c.entries)
        ⟨key, v, vec, t, t + c.config.ttl⟩) key =
      some ⟨key, v, vec, t, t + c.config.ttl⟩ :=
    mapGet_mapSet_self _ _ key rfl
  simp only [SemanticCache.get, SemanticCache.setStore, hm, hlt, if_false]

/-- C1: with a positive ttl, a `set(k, v)` call that does not throw, followed
by `get(k)` at any time strictly before the entry's expiry `t + ttl`, returns
exactly `v`. -/
theorem set_then_get_returns_value (c : Cache V) (t t' : ℤ) (key : String)
    (v : V) (emb : Option (List ℝ))
    (httl : 0 < c.config.ttl)
    (hok : (SemanticCache.set c t key v emb).1 = none)
    (ht : t' < t + c.config.ttl) :
    (SemanticCache.get (SemanticCache.set c t key v emb).2 t' key).1 =
      some v := by
  cases emb with
  | none => exact get_setStore c t t' key v _ ht
  | some e =>
    by_cases hlen : e.length ≠ c.config.embeddingDimension
    · exfalso
      simp [SemanticCache.set, hlen] at hok
    · have h2 : (SemanticCache.set c t key v (some e)).2 =
          SemanticCache.setStore c t key v e := by
        simp [SemanticCache.set, hlen]
      rw [h2]
      exact get_setStore c t t' key v e ht

/-- Witness for C1: a dimension-1 cache with ttl 100; `set` at time 0 with
vector `[0]`, `get` at time 5 returns `"v"`. -/
theorem set_then_get_returns_value_witness :
    (0 : ℤ) < emptyCache.config.ttl ∧
    (SemanticCache.set emptyCache 0 "k" "v" (some [0])).1 = none ∧
    (5 : ℤ) < 0 + emptyCache.config.ttl ∧
    (SemanticCache.get (SemanticCache.set emptyCache 0 "k" "v"
      (some [0])).2 5 "k").1 = some "v" := by
  have h1 : (0 : ℤ) < emptyCache.config.ttl := by decide
  have h2 : (SemanticCache.set emptyCache 0 "k" "v" (some [0])).1 = none := by
    simp [SemanticCache.set, emptyCache, sampleConfig]
  have h3 : (5 : ℤ) < 0 + emptyCache.config.ttl := by decide
  exact ⟨h1, h2, h3,
    set_then_get_returns_value emptyCache 0 5 "k" "v" (some [0]) h1 h2 h3⟩

/-- C5: `set` with a supplied vector whose length differs from the configured
embedding dimension throws the dimension-mismatch error; the state component
is the unmodified input state (the throw precedes every mutation), so the
prior entry for the key, if any, is preserved and no partial entry is
stored. -/
theorem set_bad_vector_rejected (c : Cache V) (now : ℤ) (key : String)
    (v : V) (e : List ℝ) (h : e.length ≠ c.config.embeddingDimension) :
    SemanticCache.set c now key v (some e) =
      (some (dimensionMismatchMsg c.config.embeddingDimension e.length), c) := by
  simp [SemanticCache.set, h]

/-- Witness for C5: supplying a length-2 vector to the dimension-1
`sampleCache` throws and leaves the state unchanged. -/
theorem set_bad_vector_rejected_witness :
    ([(0 : ℝ), 0].length ≠ sampleCache.config.embeddingDimension) ∧
    SemanticCache.set sampleCache 0 "k" "w" (some [(0 : ℝ), 0]) =
      (some (dimensionMismatchMsg sampleCache.config.embeddingDimension
        [(0 : ℝ), 0].length), sampleCache) := by
  have h : ([(0 : ℝ), 0].length ≠ sampleCache.config.embeddingDimension) := by
    decide
  exact ⟨h, set_bad_vector_rejected sampleCache 0 "k" "w" [(0 : ℝ), 0] h⟩

lemma setStore_entries_of_has (c : Cache V) (now : ℤ) (key : String) (v : V)
    (vec : List ℝ) (hkey : mapHas c.entries key = true) :
    (SemanticCache.setStore c now key v vec).entries =
      mapSet c.entries ⟨key, v, vec, now, now + c.config.ttl⟩ := by
  unfold SemanticCache.setStore
  simp [hkey]

lemma set_overwrite_core (c : Cache V) (now : ℤ) (key : String) (v : V)
    (vec : List ℝ) (hkey : mapHas c.entries key = true) :
    (SemanticCache.setStore c now key v vec).entries.length =
      c.entries.length ∧
    (∀ k', k' ≠ key →
      mapGet (SemanticCache.setStore c now key v vec).entries k' =
        mapGet c.entries k') ∧
    mapGet (SemanticCache.setStore c now key v vec).entries key =
      some ⟨key, v, vec, now, now + c.config.ttl⟩ := by
  rw [setStore_entries_of_has c now key v vec hkey]
  refine ⟨length_mapSet_of_has c.entries _ hkey, ?_, ?_⟩
  · intro k' hk'
    exact mapGet_mapSet_other c.entries _ k' hk'
  · exact mapGet_mapSet_self c.entries _ key rfl

/-- C6: `set` on a key already present in the map (whenever it does not
throw) replaces the entry in place: `stats().size` is unchanged, every other
key's entry is untouched even when the store is at `maxSize`, and the key now
maps to the freshly built entry. -/
theorem set_overwrite_no_eviction (c : Cache V) (now : ℤ) (key : String)
    (v : V) (emb : Option (List ℝ))
    (hkey : mapHas c.entries key = true)
    (hok : (SemanticCache.set c now key v emb).1 = none) :
    (SemanticCache.stats (SemanticCache.set c now key v emb).2).size =
      (SemanticCache.stats c).size ∧
    (∀ k', k' ≠ key →
      mapGet ((SemanticCache.set c now key v emb).2).entries k' =
        mapGet c.entries k') ∧
    (∃ vec, mapGet ((SemanticCache.set c now key v emb).2).entries key =
      some ⟨key, v, vec, now, now + c.config.ttl⟩) := by
  cases emb with
  | none =>
    have h2 : (SemanticCache.set c now key v none).2 =
        SemanticCache.setStore c now key v (c.config.embedFn key) := rfl
    rw [h2]
    obtain ⟨hlen, hother, hself⟩ :=
      set_overwrite_core c now key v (c.config.embedFn key) hkey
    exact ⟨by simpa [SemanticCache.stats] using hlen, hother, ⟨_, hself⟩⟩
  | some e =>
    by_cases hlenq : e.length ≠ c.config.embeddingDimension
    · exfalso
      simp [SemanticCache.set, hlenq] at hok
    · have h2 : (SemanticCache.set c now key v (some e)).2 =
          SemanticCache.setStore c now key v e := by
        simp [SemanticCache.set, hlenq]
      rw [h2]
      obtain ⟨hlen, hother, hself⟩ := set_overwrite_core c now key v e hkey
      exact ⟨by simpa [SemanticCache.stats] using hlen, hother, ⟨_, hself⟩⟩

/-- Witness for C6: overwriting the present key `"k"` of `sampleCache`. -/
theorem set_overwrite_no_eviction_witness :
    mapHas sampleCache.entries "k" = true ∧
    (SemanticCache.set sampleCache 7 "k" "w" (some [0])).1 = none ∧
    ((SemanticCache.stats (SemanticCache.set sampleCache 7 "k" "w"
        (some [0])).2).size = (SemanticCache.stats sampleCache).size ∧
      (∀ k', k' ≠ "k" →
        mapGet ((SemanticCache.set sampleCache 7 "k" "w" (some [0])).2).entries
          k' = mapGet sampleCache.entries k') ∧
      (∃ vec, mapGet ((SemanticCache.set sampleCache 7 "k" "w"
          (some [0])).2).entries "k" =
        some ⟨"k", "w", vec, 7, 7 + sampleCache.config.ttl⟩)) := by
  have h1 : mapHas sampleCache.entries "k" = true := by decide
  have h2 : (SemanticCache.set sampleCache 7 "k" "w" (some [0])).1 = none := by
    simp [SemanticCache.set, sampleCache, sampleConfig]
  exact ⟨h1, h2, set_overwrite_no_eviction sampleCache 7 "k" "w" (some [0]) h1 h2⟩

end SetGetTheorems

section SimilarityLemmas

variable {V : Type}

lemma key_of_mapGet {es : List (CacheEntry V)} {k : String} {e : CacheEntry V}
    (h : mapGet es k = some e) : e.key = k := by
  unfold mapGet at h
  simpa using List.find?_some (p := fun x : CacheEntry V => x.key == k) h

lemma mem_of_mapGet {es : List (CacheEntry V)} {k : String} {e : CacheEntry V}
    (h : mapGet es k = some e) : e ∈ es := by
  unfold mapGet at h
  exact List.mem_of_find?_eq_some h

lemma mapHas_of_mapGet {es : List (CacheEntry V)} {k : String}
    {e : CacheEntry V} (h : mapGet es k = some e) : mapHas es k = true := by
  unfold mapGet at h
  unfold mapHas
  exact List.any_eq_true.mpr
    ⟨e, List.mem_of_find?_eq_some h,
      List.find?_some (p := fun x : CacheEntry V => x.key == k) h⟩

lemma mapHas_mapRemove (es : List (CacheEntry V)) (k : String) :
    mapHas (mapRemove es k) k = false := by
  rw [Bool.eq_false_iff]
  intro h
  obtain ⟨x, hx, hxk⟩ := List.any_eq_true.mp h
  have hmem := List.of_mem_filter hx
  simp [hxk] at hmem

lemma collectResults_sound (now : ℤ) (q : List ℝ) (th : ℝ)
    (es : List (CacheEntry V)) :
    ∀ base : List (SimilarityResult V),
      collectResults now q th es = Except.ok base →
      ∀ r ∈ base, th ≤ r.similarity ∧
        ∃ e ∈ es, ¬ (e.expiresAt < now) ∧ r.key = e.key ∧ r.value = e.value ∧
          cosineSimilarity q e.embedding = Except.ok r.similarity := by
  induction es with
  | nil =>
    intro base hb r hr
    simp only [collectResults] at hb
    obtain rfl := Except.ok.inj hb
    simp at hr
  | cons e es ih =>
    intro base hb r hr
    simp only [collectResults] at hb
    by_cases hexp : e.expiresAt < now
    · rw [if_pos hexp] at hb
      obtain ⟨hth, e', he', hrest⟩ := ih base hb r hr
      exact ⟨hth, e', List.mem_cons_of_mem _ he', hrest⟩
    · rw [if_neg hexp] at hb
      cases hcos : cosineSimilarity q e.embedding with
      | error msg => rw [hcos] at hb; simp at hb
      | ok sim =>
        rw [hcos] at hb
        cases hrec : collectResults now q th es with
        | error msg => rw [hrec] at hb; simp at hb
        | ok rest =>
          rw [hrec] at hb
          simp only [] at hb
          by_cases hth : th ≤ sim
          · rw [if_pos hth] at hb
            obtain rfl := Except.ok.inj hb
            rcases List.mem_cons.mp hr with rfl | hr'
            · exact ⟨hth, e, List.mem_cons_self _ _, hexp, rfl, rfl, hcos⟩
            · obtain ⟨hth', e', he', hrest⟩ := ih rest hrec r hr'
              exact ⟨hth', e', List.mem_cons_of_mem _ he', hrest⟩
          · rw [if_neg hth] at hb
            obtain rfl := Except.ok.inj hb
            obtain ⟨hth', e', he', hrest⟩ := ih rest hrec r hr
            exact ⟨hth', e', List.mem_cons_of_mem _ he', hrest⟩

lemma mem_jsSliceTo {α : Type} {l : List α} {k : ℤ} {a : α}
    (h : a ∈ jsSliceTo l k) : a ∈ l := by
  unfold jsSliceTo at h
  split at h <;> exact List.take_subset _ _ h

lemma jsSliceTo_sublist {α : Type} (l : List α) (k : ℤ) :
    (jsSliceTo l k).Sublist l := by
  unfold jsSliceTo
  split <;> exact List.take_sublist _ _

lemma sortDesc_mem {rs : List (SimilarityResult V)} {r : SimilarityResult V} :
    r ∈ sortDesc rs ↔ r ∈ rs :=
  List.mem_insertionSort simGE

lemma sortDesc_length (rs : List (SimilarityResult V)) :
    (sortDesc rs).length = rs.length :=
  List.length_insertionSort simGE rs

lemma sortDesc_sorted (rs : List (SimilarityResult V)) :
    List.Pairwise simGE (sortDesc rs) :=
  List.sorted_insertionSort simGE rs

lemma findKNearest_ok {now : ℤ} {qe : List ℝ} {es : List (CacheEntry V)}
    {k : ℤ} {th : ℝ} {rs : List (SimilarityResult V)}
    (h : findKNearest now qe es k th = Except.ok rs) :
    ∃ base, collectResults now qe th es = Except.ok base ∧
      rs = jsSliceTo (sortDesc base) k := by
  unfold findKNearest at h
  cases hc : collectResults now qe th es with
  | error m => rw [hc] at h; simp at h
  | ok base =>
    rw [hc] at h
    simp only [] at h
    exact ⟨base, rfl, (Except.ok.inj h).symm⟩

lemma getSimilar_ok_parts (c : Cache V) (now : ℤ) (q : SemanticCache.Query)
    (k : ℤ) (th : Option ℝ) (rs : List (SimilarityResult V)) (c' : Cache V)
    (h : SemanticCache.getSimilar c now q k th = (Except.ok rs, c')) :
    ∃ qe base,
      collectResults now qe (th.getD c.config.similarityThreshold) c.entries =
        Except.ok base ∧
      rs = jsSliceTo (sortDesc base) k ∧
      (∀ v, q = SemanticCache.Query.vec v → qe = v) := by
  unfold SemanticCache.getSimilar at h
  cases q with
  | text s =>
    simp only [] at h
    cases hf : findKNearest now (c.config.embedFn s) c.entries k
        (th.getD c.config.similarityThreshold) with
    | error m => rw [hf] at h; simp at h
    | ok results =>
      rw [hf] at h
      simp only [] at h
      have hrs : Except.ok results = Except.ok rs := congrArg Prod.fst h
      obtain rfl := Except.ok.inj hrs
      obtain ⟨base, hbase, hslice⟩ := findKNearest_ok hf
      refine ⟨c.config.embedFn s, base, hbase, hslice, ?_⟩
      intro v hv
      simp at hv
  | vec v =>
    simp only [] at h
    cases hf : findKNearest now v c.entries k
        (th.getD c.config.similarityThreshold) with
    | error m => rw [hf] at h; simp at h
    | ok results =>
      rw [hf] at h
      simp only [] at h
      have hrs : Except.ok results = Except.ok rs := congrArg Prod.fst h
      obtain rfl := Except.ok.inj hrs
      obtain ⟨base, hbase, hslice⟩ := findKNearest_ok hf
      refine ⟨v, base, hbase, hslice, ?_⟩
      intro v' hv'
      simp only [SemanticCache.Query.vec.injEq] at hv'
      exact hv'.symm ▸ rfl

lemma getSimilar_entries (c : Cache V) (now : ℤ) (q : SemanticCache.Query)
    (k : ℤ) (th : Option ℝ) :
    ((SemanticCache.getSimilar c now q k th).2).entries = c.entries := by
  unfold SemanticCache.getSimilar
  cases hf : findKNearest now
      (match q with
       | SemanticCache.Query.text s => c.config.embedFn s
       | SemanticCache.Query.vec v => v)
      c.entries k (th.getD c.config.similarityThreshold) with
  | error m => rfl
  | ok results =>
    simp only []
    by_cases hlen : results.length > 0 <;> simp [hlen]

lemma getSimilar_config (c : Cache V) (now : ℤ) (q : SemanticCache.Query)
    (k : ℤ) (th : Option ℝ) :
    ((SemanticCache.getSimilar c now q k th).2).config = c.config := by
  unfold SemanticCache.getSimilar
  cases hf : findKNearest now
      (match q with
       | SemanticCache.Query.text s => c.config.embedFn s
       | SemanticCache.Query.vec v => v)
      c.entries k (th.getD c.config.similarityThreshold) with
  | error m => rfl
  | ok results =>
    simp only []
    by_cases hlen : results.length > 0 <;> simp [hlen]

end SimilarityLemmas

section ExpiryTheorems

variable {V : Type}

lemma expired_get_none (c : Cache V) (now : ℤ) (key : String)
    (hall : ∀ e' ∈ c.entries, e'.key = key → e'.expiresAt < now) :
    (SemanticCache.get c now key).1 = none := by
  unfold SemanticCache.get
  cases hm : mapGet c.entries key with
  | none => rfl
  | some e =>
    have hexp : e.expiresAt < now :=
      hall e (mem_of_mapGet hm) (key_of_mapGet hm)
    simp only []
    rw [if_pos hexp]

lemma expired_has_false (c : Cache V) (now : ℤ) (key : String)
    (hall : ∀ e' ∈ c.entries, e'.key = key → e'.expiresAt < now) :
    (SemanticCache.has c now key).1 = false := by
  unfold SemanticCache.has
  cases hm : mapGet c.entries key with
  | none => rfl
  | some e =>
    have hexp : e.expiresAt < now :=
      hall e (mem_of_mapGet hm) (key_of_mapGet hm)
    simp only []
    rw [if_pos hexp]

lemma getSimilar_excludes_key (c : Cache V) (now : ℤ) (key : String)
    (hall : ∀ e' ∈ c.entries, e'.key = key → e'.expiresAt < now) :
    ∀ (q : SemanticCache.Query) (k : ℤ) (th : Option ℝ)
      (rs : List (SimilarityResult V)) (c' : Cache V),
      SemanticCache.getSimilar c now q k th = (Except.ok rs, c') →
      ∀ r ∈ rs, r.key ≠ key := by
  intro q k th rs c' h r hr hrk
  obtain ⟨qe, base, hbase, hslice, -⟩ :=
    getSimilar_ok_parts c now q k th rs c' h
  have hr' : r ∈ base := sortDesc_mem.mp (mem_jsSliceTo (hslice ▸ hr))
  obtain ⟨-, e', he', hlive, hkey', -, -⟩ :=
    collectResults_sound now qe (th.getD c.config.similarityThreshold)
      c.entries base hbase r hr'
  exact hlive (hall e' he' (by rw [← hkey', hrk]))

/-- C2 counterexample: `sampleCache`'s entry has `expiresAt = 100`.  At
current time exactly `100` (current time = `expiresAt`, so the claim demands
absence) `get` still returns the value and `has` still returns `true`: the
code expires entries only strictly after `expiresAt` (`expiresAt < now`). -/
theorem expiry_boundary_counterexample :
    (SemanticCache.get sampleCache 100 "k").1 = some "v" ∧
    (SemanticCache.has sampleCache 100 "k").1 = true := by
  exact ⟨rfl, rfl⟩

/-- C2 amended: an entry is treated as absent by every read path once the
current time strictly exceeds its `expiresAt` (the hypothesis covers every
stored entry under the key): `get` returns `none`, `has` returns `false`, and
`getSimilar` never returns a result with that key. -/
theorem expired_entry_absent_strict (c : Cache V) (now : ℤ) (key : String)
    (e : CacheEntry V)
    (hfound : mapGet c.entries key = some e)
    (hall : ∀ e' ∈ c.entries, e'.key = key → e'.expiresAt < now) :
    (SemanticCache.get c now key).1 = none ∧
    (SemanticCache.has c now key).1 = false ∧
    ∀ (q : SemanticCache.Query) (k : ℤ) (th : Option ℝ)
      (rs : List (SimilarityResult V)) (c' : Cache V),
      SemanticCache.getSimilar c now q k th = (Except.ok rs, c') →
      ∀ r ∈ rs, r.key ≠ key :=
  ⟨expired_get_none c now key hall, expired_has_false c now key hall,
   getSimilar_excludes_key c now key hall⟩

/-- Witness for the amended C2 at time 200 on `sampleCache` (entry expired
at 100). -/
theorem expired_entry_absent_strict_witness :
    mapGet sampleCache.entries "k" = some ⟨"k", "v", [0], 0, 100⟩ ∧
    (∀ e' ∈ sampleCache.entries, e'.key = "k" → e'.expiresAt < 200) ∧
    ((SemanticCache.get sampleCache 200 "k").1 = none ∧
      (SemanticCache.has sampleCache 200 "k").1 = false ∧
      ∀ (q : SemanticCache.Query) (k : ℤ) (th : Option ℝ)
        (rs : List (SimilarityResult String)) (c' : Cache String),
        SemanticCache.getSimilar sampleCache 200 q k th = (Except.ok rs, c') →
        ∀ r ∈ rs, r.key ≠ "k") := by
  have h1 : mapGet sampleCache.entries "k" = some ⟨"k", "v", [0], 0, 100⟩ := rfl
  have h2 : ∀ e' ∈ sampleCache.entries, e'.key = "k" → e'.expiresAt < 200 := by
    intro e' he' _
    simp only [sampleCache, List.mem_singleton] at he'
    rw [he']
    decide
  exact ⟨h1, h2, expired_entry_absent_strict sampleCache 200 "k" _ h1 h2⟩

lemma get_expired_state (c : Cache V) (now : ℤ) (key : String)
    (e : CacheEntry V) (hfound : mapGet c.entries key = some e)
    (hexp : e.expiresAt < now) :
    (SemanticCache.get c now key).2 =
      { c with entries := mapRemove c.entries key, misses := c.misses + 1 } := by
  unfold SemanticCache.get
  rw [hfound]
  simp only []
  rw [if_pos hexp]

lemma has_expired_state (c : Cache V) (now : ℤ) (key : String)
    (e : CacheEntry V) (hfound : mapGet c.entries key = some e)
    (hexp : e.expiresAt < now) :
    (SemanticCache.has c now key).2 =
      { c with entries := mapRemove c.entries key } := by
  unfold SemanticCache.has
  rw [hfound]
  simp only []
  rw [if_pos hexp]

lemma mapRemove_length_lt (c : Cache V) (key : String) (e : CacheEntry V)
    (hfound : mapGet c.entries key = some e) :
    (mapRemove c.entries key).length < c.entries.length := by
  have hkey := key_of_mapGet hfound
  exact List.length_filter_lt_length_iff_exists.mpr
    ⟨e, mem_of_mapGet hfound, by simp [hkey]⟩

/-- C8 counterexample: at time 200 the similarity scan of `getSimilar`
touches the expired entry of `sampleCache` (`expiresAt = 100 < 200`), yet the
entry is not purged: the resulting state is unchanged and `stats().size` is
still 1 (the claim demands it no longer count toward the size). -/
theorem scan_does_not_purge_counterexample :
    (SemanticCache.getSimilar sampleCache 200 (SemanticCache.Query.vec [0]) 5
      (some 0)).2 = sampleCache ∧
    (SemanticCache.stats ((SemanticCache.getSimilar sampleCache 200
      (SemanticCache.Query.vec [0]) 5 (some 0)).2)).size = 1 := by
  exact ⟨rfl, rfl⟩

/-- C8 amended: an access through `get` or `has` that touches an expired
entry purges it (the key becomes physically absent and storage strictly
shrinks), but a similarity scan through `getSimilar` leaves storage
untouched (it only skips expired entries). -/
theorem lazy_purge_get_has_only (c : Cache V) (now : ℤ) (key : String)
    (e : CacheEntry V)
    (hfound : mapGet c.entries key = some e)
    (hexp : e.expiresAt < now) :
    mapHas ((SemanticCache.get c now key).2).entries key = false ∧
    ((SemanticCache.get c now key).2).entries.length < c.entries.length ∧
    mapHas ((SemanticCache.has c now key).2).entries key = false ∧
    ((SemanticCache.has c now key).2).entries.length < c.entries.length ∧
    ∀ (q : SemanticCache.Query) (k : ℤ) (th : Option ℝ),
      ((SemanticCache.getSimilar c now q k th).2).entries = c.entries := by
  rw [get_expired_state c now key e hfound hexp,
    has_expired_state c now key e hfound hexp]
  exact ⟨mapHas_mapRemove c.entries key,
    mapRemove_length_lt c key e hfound,
    mapHas_mapRemove c.entries key,
    mapRemove_length_lt c key e hfound,
    fun q k th => getSimilar_entries c now q k th⟩

/-- Witness for the amended C8 at time 300 on `sampleCache`. -/
theorem lazy_purge_get_has_only_witness :
    mapGet sampleCache.entries "k" = some ⟨"k", "v", [0], 0, 100⟩ ∧
    ((⟨"k", "v", [0], 0, 100⟩ : CacheEntry String).expiresAt < 300) ∧
    (mapHas ((SemanticCache.get sampleCache 300 "k").2).entries "k" = false ∧
      ((SemanticCache.get sampleCache 300 "k").2).entries.length <
        sampleCache.entries.length ∧
      mapHas ((SemanticCache.has sampleCache 300 "k").2).entries "k" = false ∧
      ((SemanticCache.has sampleCache 300 "k").2).entries.length <
        sampleCache.entries.length ∧
      ∀ (q : SemanticCache.Query) (k : ℤ) (th : Option ℝ),
        ((SemanticCache.getSimilar sampleCache 300 q k th).2).entries =
          sampleCache.entries) := by
  have h1 : mapGet sampleCache.entries "k" = some ⟨"k", "v", [0], 0, 100⟩ := rfl
  have h2 : (⟨"k", "v", [0], 0, 100⟩ : CacheEntry String).expiresAt < 300 := by
    decide
  exact ⟨h1, h2, lazy_purge_get_has_only sampleCache 300 "k" _ h1 h2⟩

/-- C10: a key whose entry is expired but still physically in storage is
deleted by `delete`, which returns `true` and removes it, even though every
read path already treats the key as absent (`get` returns `none`, `has`
returns `false`, `getSimilar` never returns that key). -/
theorem delete_expired_returns_true (c : Cache V) (now : ℤ) (key : String)
    (e : CacheEntry V)
    (hfound : mapGet c.entries key = some e)
    (hall : ∀ e' ∈ c.entries, e'.key = key → e'.expiresAt < now) :
    (SemanticCache.delete c key).1 = true ∧
    mapHas ((SemanticCache.delete c key).2).entries key = false ∧
    (SemanticCache.get c now key).1 = none ∧
    (SemanticCache.has c now key).1 = false ∧
    ∀ (q : SemanticCache.Query) (k : ℤ) (th : Option ℝ)
      (rs : List (SimilarityResult V)) (c' : Cache V),
      SemanticCache.getSimilar c now q k th = (Except.ok rs, c') →
      ∀ r ∈ rs, r.key ≠ key := by
  refine ⟨?_, ?_, expired_get_none c now key hall,
    expired_has_false c now key hall, getSimilar_excludes_key c now key hall⟩
  · show mapHas c.entries key = true
    exact mapHas_of_mapGet hfound
  · show mapHas (mapRemove c.entries key) key = false
    exact mapHas_mapRemove c.entries key

/-- Witness for C10 at time 150 on `sampleCache` (entry expired at 100, still
stored). -/
theorem delete_expired_returns_true_witness :
    mapGet sampleCache.entries "k" = some ⟨"k", "v", [0], 0, 100⟩ ∧
    (∀ e' ∈ sampleCache.entries, e'.key = "k" → e'.expiresAt < 150) ∧
    ((SemanticCache.delete sampleCache "k").1 = true ∧
      mapHas ((SemanticCache.delete sampleCache "k").2).entries "k" = false ∧
      (SemanticCache.get sampleCache 150 "k").1 = none ∧
      (SemanticCache.has sampleCache 150 "k").1 = false ∧
      ∀ (q : SemanticCache.Query) (k : ℤ) (th : Option ℝ)
        (rs : List (SimilarityResult String)) (c' : Cache String),
        SemanticCache.getSimilar sampleCache 150 q k th = (Except.ok rs, c') →
        ∀ r ∈ rs, r.key ≠ "k") := by
  have h1 : mapGet sampleCache.entries "k" = some ⟨"k", "v", [0], 0, 100⟩ := rfl
  have h2 : ∀ e' ∈ sampleCache.entries, e'.key = "k" → e'.expiresAt < 150 := by
    intro e' he' _
    simp only [sampleCache, List.mem_singleton] at he'
    rw [he']
    decide
  exact ⟨h1, h2, delete_expired_returns_true sampleCache 150 "k" _ h1 h2⟩

end ExpiryTheorems

section TopKTheorems

variable {V : Type}

/-- C3: when `getSimilar` succeeds on a vector query with `k > 0`, every
returned result meets the effective threshold
(`threshold ?? config.similarityThreshold`), the results are ordered by
descending similarity, each result is a live (non-expired) stored entry with
its true cosine similarity to the query, and the result count is `k` capped
by the number of qualifying entries (with threshold 0 these are drawn from
all live entries). -/
theorem getSimilar_threshold_and_order (c : Cache V) (now : ℤ) (qv : List ℝ)
    (k : ℤ) (th : Option ℝ) (rs : List (SimilarityResult V)) (c' : Cache V)
    (hk : 0 < k)
    (h : SemanticCache.getSimilar c now (SemanticCache.Query.vec qv) k th =
      (Except.ok rs, c')) :
    (∀ r ∈ rs, th.getD c.config.similarityThreshold ≤ r.similarity) ∧
    List.Pairwise simGE rs ∧
    (∀ r ∈ rs, ∃ e ∈ c.entries, ¬ (e.expiresAt < now) ∧ r.key = e.key ∧
      r.value = e.value ∧
      cosineSimilarity qv e.embedding = Except.ok r.similarity) ∧
    ∀ base, collectResults now qv (th.getD c.config.similarityThreshold)
        c.entries = Except.ok base →
      rs.length = min k.toNat base.length := by
  obtain ⟨qe, base, hbase, hslice, hq⟩ :=
    getSimilar_ok_parts c now (SemanticCache.Query.vec qv) k th rs c' h
  rw [hq qv rfl] at hbase
  subst hslice
  refine ⟨?_, ?_, ?_, ?_⟩
  · intro r hr
    have hr' : r ∈ base := sortDesc_mem.mp (mem_jsSliceTo hr)
    exact (collectResults_sound now qv (th.getD c.config.similarityThreshold)
      c.entries base hbase r hr').1
  · exact List.Pairwise.sublist (jsSliceTo_sublist _ k) (sortDesc_sorted base)
  · intro r hr
    have hr' : r ∈ base := sortDesc_mem.mp (mem_jsSliceTo hr)
    exact (collectResults_sound now qv (th.getD c.config.similarityThreshold)
      c.entries base hbase r hr').2
  · intro base' hbase'
    rw [hbase] at hbase'
    obtain rfl := Except.ok.inj hbase'
    unfold jsSliceTo
    rw [if_neg (by omega : ¬ k < 0), List.length_take, sortDesc_length]

/-- Witness for C3 on the empty cache with `k = 1` and threshold `0`. -/
theorem getSimilar_threshold_and_order_witness :
    (0 : ℤ) < 1 ∧
    SemanticCache.getSimilar emptyCache 0 (SemanticCache.Query.vec []) 1
      (some 0) = (Except.ok [], emptyCache) ∧
    ((∀ r ∈ ([] : List (SimilarityResult String)),
        (some (0 : ℝ)).getD emptyCache.config.similarityThreshold ≤
          r.similarity) ∧
      List.Pairwise simGE ([] : List (SimilarityResult String)) ∧
      (∀ r ∈ ([] : List (SimilarityResult String)), ∃ e ∈ emptyCache.entries,
        ¬ (e.expiresAt < 0) ∧ r.key = e.key ∧ r.value = e.value ∧
        cosineSimilarity [] e.embedding = Except.ok r.similarity) ∧
      ∀ base, collectResults 0 []
          ((some (0 : ℝ)).getD emptyCache.config.similarityThreshold)
          emptyCache.entries = Except.ok base →
        ([] : List (SimilarityResult String)).length =
          min (1 : ℤ).toNat base.length) := by
  have h1 : (0 : ℤ) < 1 := by decide
  have h2 : SemanticCache.getSimilar emptyCache 0
      (SemanticCache.Query.vec []) 1 (some 0) = (Except.ok [], emptyCache) :=
    rfl
  exact ⟨h1, h2,
    getSimilar_threshold_and_order emptyCache 0 [] 1 (some 0) [] emptyCache
      h1 h2⟩

lemma cosineSimilarity_one_one :
    cosineSimilarity [(1 : ℝ)] [(1 : ℝ)] = Except.ok 1 := by
  have hs : sumSq [(1 : ℝ)] = 1 := by
    simp [sumSq]
  have hd : dotProduct [(1 : ℝ)] [(1 : ℝ)] = 1 := by
    simp [dotProduct]
  unfold cosineSimilarity
  simp [hs, hd]

/-- C7 counterexample: on `twoEntryCache` (two live qualifying entries of
similarity 1), `getSimilar` with `k = -1` returns one result, not an empty
result: JS `slice(0, -1)` drops elements from the end instead of returning
an empty array. -/
theorem negative_k_counterexample :
    (SemanticCache.getSimilar twoEntryCache 0 (SemanticCache.Query.vec [1])
      (-1) (some 0)).1 =
      Except.ok [⟨"a", "va", 1⟩] := by
  have hc : collectResults 0 [(1 : ℝ)] 0 twoEntryCache.entries =
      Except.ok [⟨"a", "va", (1 : ℝ)⟩, ⟨"b", "vb", 1⟩] := by
    simp only [twoEntryCache, collectResults, cosineSimilarity_one_one]
    norm_num
  have hsort : sortDesc [(⟨"a", "va", (1 : ℝ)⟩ : SimilarityResult String),
      ⟨"b", "vb", 1⟩] = [⟨"a", "va", 1⟩, ⟨"b", "vb", 1⟩] := by
    unfold sortDesc
    norm_num [List.insertionSort, List.orderedInsert, simGE]
  have hfk : findKNearest 0 [(1 : ℝ)] twoEntryCache.entries (-1) 0 =
      Except.ok [⟨"a", "va", 1⟩] := by
    unfold findKNearest
    rw [hc]
    simp only []
    rw [hsort]
    norm_num [jsSliceTo]
  unfold SemanticCache.getSimilar
  simp only [Option.getD_some]
  rw [hfk]

/-- C7 amended: `k = 0` yields an empty result; a negative `k` instead yields
the sorted qualifying results with the last `|k|` of them dropped (JS
`slice(0, k)` semantics), which is empty only when at most `|k|` entries
qualify. -/
theorem findKNearest_nonpos_k (now : ℤ) (q : List ℝ)
    (es : List (CacheEntry V)) (k : ℤ) (th : ℝ)
    (base rs : List (SimilarityResult V))
    (hk : k ≤ 0)
    (hbase : collectResults now q th es = Except.ok base)
    (h : findKNearest now q es k th = Except.ok rs) :
    (k = 0 → rs = []) ∧
    (k < 0 → rs.length = ((base.length : ℤ) + k).toNat) := by
  obtain ⟨base', hbase', hslice⟩ := findKNearest_ok h
  rw [hbase] at hbase'
  obtain rfl := Except.ok.inj hbase'
  subst hslice
  constructor
  · intro hk0
    subst hk0
    unfold jsSliceTo
    rw [if_neg (by omega : ¬ (0 : ℤ) < 0)]
    simp
  · intro hkneg
    unfold jsSliceTo
    rw [if_pos hkneg, List.length_take, sortDesc_length]
    omega

/-- Witness for the amended C7 on the empty entry list with `k = 0`. -/
theorem findKNearest_nonpos_k_witness :
    (0 : ℤ) ≤ 0 ∧
    collectResults 0 [] 0 ([] : List (CacheEntry String)) = Except.ok [] ∧
    findKNearest 0 [] ([] : List (CacheEntry String)) 0 0 = Except.ok [] ∧
    (((0 : ℤ) = 0 → ([] : List (SimilarityResult String)) = []) ∧
      ((0 : ℤ) < 0 →
        ([] : List (SimilarityResult String)).length =
          ((([] : List (SimilarityResult String)).length : ℤ) + 0).toNat)) := by
  have h1 : (0 : ℤ) ≤ 0 := by decide
  have h2 : collectResults 0 [] 0 ([] : List (CacheEntry String)) =
      Except.ok [] := rfl
  have h3 : findKNearest 0 [] ([] : List (CacheEntry String)) 0 0 =
      Except.ok [] := rfl
  exact ⟨h1, h2, h3, findKNearest_nonpos_k 0 [] [] 0 0 [] [] h1 h2 h3⟩

end TopKTheorems

section EvictionTheorems

/-- C4 code-bug exhibit: a fresh cache with `maxSize = 1`; inserting the two
distinct keys `""` then `"a"` (no reads, no overwrites) leaves 2 entries, not
`maxSize = 1`, and the oldest key `""` is still present: `evictOldest` guards
its deletion with the JS truthiness test `if (oldestKey)`, under which the
empty-string key is falsy, so no entry is evicted and the store exceeds
`maxSize`, contradicting the documented eviction of the oldest entry. -/
theorem empty_key_eviction_bug :
    oneCapCache.config.maxSize = 1 ∧
    (SemanticCache.stats ((SemanticCache.set ((SemanticCache.set oneCapCache
      0 "" "v0" (some [0])).2) 1 "a" "v1" (some [0])).2)).size = 2 ∧
    mapHas ((SemanticCache.set ((SemanticCache.set oneCapCache
      0 "" "v0" (some [0])).2) 1 "a" "v1" (some [0])).2).entries "" = true ∧
    mapHas ((SemanticCache.set ((SemanticCache.set oneCapCache
      0 "" "v0" (some [0])).2) 1 "a" "v1" (some [0])).2).entries "a" = true := by
  exact ⟨rfl, rfl, rfl, rfl⟩

end EvictionTheorems

section InvariantLemmas

variable {V : Type}

lemma get_config (c : Cache V) (now : ℤ) (key : String) :
    ((SemanticCache.get c now key).2).config = c.config := by
  unfold SemanticCache.get
  cases hm : mapGet c.entries key with
  | none => rfl
  | some e =>
    simp only []
    by_cases he : e.expiresAt < now
    · rw [if_pos he]
    · rw [if_neg he]

lemma has_config (c : Cache V) (now : ℤ) (key : String) :
    ((SemanticCache.has c now key).2).config = c.config := by
  unfold SemanticCache.has
  cases hm : mapGet c.entries key with
  | none => rfl
  | some e =>
    simp only []
    by_cases he : e.expiresAt < now
    · rw [if_pos he]
    · rw [if_neg he]

lemma set_config (c : Cache V) (now : ℤ) (key : String) (v : V)
    (emb : Option (List ℝ)) :
    ((SemanticCache.set c now key v emb).2).config = c.config := by
  cases emb with
  | none => rfl
  | some e =>
    simp only [SemanticCache.set]
    by_cases hlen : e.length ≠ c.config.embeddingDimension
    · rw [if_pos hlen]
    · rw [if_neg hlen]
      rfl

lemma step_config {c c' : Cache V} (h : Step c c') : c'.config = c.config := by
  cases h with
  | get now key => exact get_config c now key
  | set now key v emb => exact set_config c now key v emb
  | getSimilar now q k th => exact getSimilar_config c now q k th
  | has now key => exact has_config c now key
  | delete key => rfl
  | clear => rfl

lemma get_entries_sub (c : Cache V) (now : ℤ) (key : String) :
    ∀ x ∈ ((SemanticCache.get c now key).2).entries, x ∈ c.entries := by
  unfold SemanticCache.get
  cases hm : mapGet c.entries key with
  | none => exact fun x hx => hx
  | some e =>
    simp only []
    by_cases he : e.expiresAt < now
    · rw [if_pos he]
      exact fun x hx => List.mem_of_mem_filter hx
    · rw [if_neg he]
      exact fun x hx => hx

lemma has_entries_sub (c : Cache V) (now : ℤ) (key : String) :
    ∀ x ∈ ((SemanticCache.has c now key).2).entries, x ∈ c.entries := by
  unfold SemanticCache.has
  cases hm : mapGet c.entries key with
  | none => exact fun x hx => hx
  | some e =>
    simp only []
    by_cases he : e.expiresAt < now
    · rw [if_pos he]
      exact fun x hx => List.mem_of_mem_filter hx
    · rw [if_neg he]
      exact fun x hx => hx

lemma mem_mapSet (es : List (CacheEntry V)) (e : CacheEntry V) :
    ∀ x ∈ mapSet es e, x = e ∨ x ∈ es := by
  unfold mapSet
  split
  · intro x hx
    obtain ⟨y, hy, hxy⟩ := List.mem_map.mp hx
    by_cases hyk : (y.key == e.key) = true
    · left
      rw [← hxy, if_pos hyk]
    · right
      rw [← hxy, if_neg hyk]
      exact hy
  · intro x hx
    rcases List.mem_append.mp hx with h | h
    · right
      exact h
    · left
      simpa using h

lemma mem_evictOldest (es : List (CacheEntry V)) :
    ∀ x ∈ SemanticCache.evictOldest es, x ∈ es := by
  unfold SemanticCache.evictOldest
  cases ho : SemanticCache.oldestOf es with
  | none => exact fun x hx => hx
  | some k =>
    simp only []
    by_cases hk : k = ""
    · rw [if_pos hk]
      exact fun x hx => hx
    · rw [if_neg hk]
      exact fun x hx => List.mem_of_mem_filter hx

lemma setStore_dim (c : Cache V) (now : ℤ) (key : String) (v : V)
    (vec : List ℝ)
    (hvec : vec.length = c.config.embeddingDimension)
    (hinv : ∀ e ∈ c.entries,
      e.embedding.length = c.config.embeddingDimension) :
    ∀ e ∈ (SemanticCache.setStore c now key v vec).entries,
      e.embedding.length = c.config.embeddingDimension := by
  intro e he
  have he' : e ∈ mapSet
      (if (c.entries.length : ℤ) ≥ c.config.maxSize ∧
          mapHas c.entries key = false
       then SemanticCache.evictOldest c.entries else c.entries)
      ⟨key, v, vec, now, now + c.config.ttl⟩ := he
  rcases mem_mapSet _ _ e he' with heq | hmem
  · rw [heq]
    exact hvec
  · split at hmem
    · exact hinv e (mem_evictOldest c.entries e hmem)
    · exact hinv e hmem

end InvariantLemmas

section ReachabilityTheorem

variable {V : Type}

/-- C9: in every reachable cache state whose (pluggable) embedding function
honours the provider contract of spec §2/§6 — it returns vectors of the
configured dimension — every stored entry's vector has length exactly
`config.embeddingDimension`: externally supplied vectors are validated at
`set` time, and vectors produced by the embedding function satisfy the
contract. -/
theorem reachable_entry_dimension (c : Cache V) (hreach : Reachable c) :
    (∀ s, (c.config.embedFn s).length = c.config.embeddingDimension) →
    ∀ e ∈ c.entries, e.embedding.length = c.config.embeddingDimension := by
  induction hreach with
  | init cfg =>
    intro _ e he
    simp [SemanticCache.createSemanticCache] at he
  | @step c0 c1 hr hs ih =>
    intro hembed
    have hcfg : c1.config = c0.config := step_config hs
    rw [hcfg] at hembed
    have hinv := ih hembed
    rw [hcfg]
    cases hs with
    | get now key =>
      exact fun e he => hinv e (get_entries_sub c0 now key e he)
    | has now key =>
      exact fun e he => hinv e (has_entries_sub c0 now key e he)
    | delete key =>
      exact fun e he => hinv e (List.mem_of_mem_filter he)
    | clear =>
      intro e he
      simp [SemanticCache.clear] at he
    | getSimilar now q k th =>
      intro e he
      rw [getSimilar_entries c0 now q k th] at he
      exact hinv e he
    | set now key v emb =>
      cases emb with
      | none =>
        exact setStore_dim c0 now key v (c0.config.embedFn key)
          (hembed key) hinv
      | some ev =>
        by_cases hlen : ev.length ≠ c0.config.embeddingDimension
        · have hst : (SemanticCache.set c0 now key v (some ev)).2 = c0 := by
            simp [SemanticCache.set, hlen]
          rw [hst]
          exact hinv
        · have hst : (SemanticCache.set c0 now key v (some ev)).2 =
              SemanticCache.setStore c0 now key v ev := by
            simp [SemanticCache.set, hlen]
          rw [hst]
          exact setStore_dim c0 now key v ev (not_ne_iff.mp hlen) hinv

/-- Witness for C9: the state reached by constructing a cache from
`witnessInput` (dimension 1, embedding function returning `[0]`) and doing
one `set` without a supplied vector. -/
theorem reachable_entry_dimension_witness :
    Reachable ((SemanticCache.set (SemanticCache.createSemanticCache
      witnessInput : Cache String) 0 "k" "v" none).2) ∧
    (∀ s, (((SemanticCache.set (SemanticCache.createSemanticCache
        witnessInput : Cache String) 0 "k" "v" none).2).config.embedFn
          s).length =
      ((SemanticCache.set (SemanticCache.createSemanticCache
        witnessInput : Cache String) 0 "k" "v" none).2).config.embeddingDimension) ∧
    ∀ e ∈ ((SemanticCache.set (SemanticCache.createSemanticCache
        witnessInput : Cache String) 0 "k" "v" none).2).entries,
      e.embedding.length =
        ((SemanticCache.set (SemanticCache.createSemanticCache
          witnessInput : Cache String) 0 "k" "v" none).2).config.embeddingDimension := by
  have hr : Reachable ((SemanticCache.set (SemanticCache.createSemanticCache
      witnessInput : Cache String) 0 "k" "v" none).2) :=
    Reachable.step (Reachable.init witnessInput)
      (Step.set (SemanticCache.createSemanticCache witnessInput) 0 "k" "v"
        none)
  have hc : ∀ s, (((SemanticCache.set (SemanticCache.createSemanticCache
      witnessInput : Cache String) 0 "k" "v" none).2).config.embedFn
        s).length =
      ((SemanticCache.set (SemanticCache.createSemanticCache
        witnessInput : Cache String) 0 "k" "v" none).2).config.embeddingDimension := by
    intro s
    rfl
  exact ⟨hr, hc, reachable_entry_dimension _ hr hc⟩

end ReachabilityTheorem
